import Mathlib

/-!
Verification of core routines of the stormdriver aggregating reverse proxy.

Go maps are embedded as association lists with unique keys reachable from
`goMapSet`; Go byte slices as `Option (List Nat)` so that the `nil` slice
(`none`) stays distinct from the empty slice (`some []`); Go functions that
can panic return `Option`.
-/

namespace Stormdriver

/-- Go map read: `v, ok := m[k]`. -/
def goMapGet {V : Type} : List (String × V) → String → Option V
  | [], _ => none
  | (k', v) :: rest, k => if k' = k then some v else goMapGet rest k

/-- Go map write: `m[k] = v` (replaces the binding if present, inserts otherwise). -/
def goMapSet {V : Type} : List (String × V) → String → V → List (String × V)
  | [], k, v => [(k, v)]
  | (k', v') :: rest, k, v =>
      if k' = k then (k, v) :: rest else (k', v') :: goMapSet rest k v

/-- Go map delete: `delete(m, k)`. -/
def goMapDelete {V : Type} : List (String × V) → String → List (String × V)
  | [], _ => []
  | (k', v') :: rest, k =>
      if k' = k then rest else (k', v') :: goMapDelete rest k

/-- `URLAndPriority` from the routing code: URL, priority and bearer token of
one clouddriver backend. -/
structure URLAndPriority where
  URL : String
  Priority : Int
  token : String
deriving DecidableEq

/-- `trackedSpinnakerAccount`: the `(name, type)` pair a backend advertises on
its credentials endpoints. -/
structure TrackedSpinnakerAccount where
  Name : String
  Type' : String
deriving DecidableEq

/-- The routes map built during one refresh: account name to backend. -/
abbrev RoutesMap := List (String × URLAndPriority)

/-- `mergeIfUnique` from the account tracker: merge one backend's advertised
accounts into the new routes map and account list.  An unseen name is inserted
and its account appended; a seen name is overwritten (without appending) only
when the incoming backend has strictly higher priority. -/
def mergeIfUnique (cd : URLAndPriority) :
    List TrackedSpinnakerAccount → RoutesMap → List TrackedSpinnakerAccount →
    RoutesMap × List TrackedSpinnakerAccount
  | [], routes, newAccounts => (routes, newAccounts)
  | account :: rest, routes, newAccounts =>
      match goMapGet routes account.Name with
      | none => mergeIfUnique cd rest (goMapSet routes account.Name cd) (newAccounts ++ [account])
      | some current =>
          if current.Priority < cd.Priority then
            mergeIfUnique cd rest (goMapSet routes account.Name cd) newAccounts
          else
            mergeIfUnique cd rest routes newAccounts

/-- The merge loop of `fetchCreds`: the per-backend responses (already fetched;
a failed backend contributes an empty account list) are merged in completion
order into an initially empty routes map and account list. -/
def fetchCreds (resps : List (URLAndPriority × List TrackedSpinnakerAccount)) :
    RoutesMap × List TrackedSpinnakerAccount :=
  resps.foldl (fun acc resp => mergeIfUnique resp.1 resp.2 acc.1 acc.2) ([], [])

/-- The backends, in processing order, whose response advertises `name`. -/
def advertisers (name : String)
    (resps : List (URLAndPriority × List TrackedSpinnakerAccount)) :
    List URLAndPriority :=
  (resps.filter (fun resp => resp.2.any (fun a => a.Name = name))).map (fun resp => resp.1)

/-- Keep the earlier backend unless the later one has strictly higher
priority: the winner among a nonempty list of advertisers. -/
def pickWinner : Option URLAndPriority → List URLAndPriority → Option URLAndPriority
  | cur, [] => cur
  | none, cd :: rest => pickWinner (some cd) rest
  | some best, cd :: rest =>
      pickWinner (some (if best.Priority < cd.Priority then cd else best)) rest

/-- How many entries of the account list carry the given name. -/
def countName (accounts : List TrackedSpinnakerAccount) (name : String) : Nat :=
  (accounts.filter (fun a => a.Name = name)).length

/-! ## HTTP header shaping (`copyHeaders`, `fetchGet`) -/

/-- The bytes Go's `textproto` accepts in a header field name (RFC 7230 token
characters). -/
def validHeaderFieldChar (c : Char) : Bool :=
  c.isAlphanum ||
    c = '!' || c = '#' || c = '$' || c = '%' || c = '&' || c.toNat = 39 ||
    c = '*' || c = '+' || c = '-' || c = '.' || c = '^' || c = '_' ||
    c.toNat = 96 || c = '|' || c = '~'

/-- The canonicalisation pass of `textproto.CanonicalMIMEHeaderKey`: uppercase
the first letter and every letter following a hyphen, lowercase the rest. -/
def canonicalChars : Bool → List Char → List Char
  | _, [] => []
  | upper, c :: rest =>
      let c := if upper then c.toUpper else c.toLower
      c :: canonicalChars (c = '-') rest

/-- `textproto.CanonicalMIMEHeaderKey`: keys holding an invalid byte are
returned unchanged, all others are canonicalised. -/
def canonicalMIMEHeaderKey (s : String) : String :=
  if s.data.all validHeaderFieldChar then String.mk (canonicalChars true s.data) else s

/-- Go's `http.Header`: a map from canonical key to the list of values. -/
abbrev Header := List (String × List String)

/-- `http.Header.Add`: canonicalise the key and append the value to the entry,
creating the entry if absent. -/
def headerAdd : Header → String → String → Header
  | h, k, v =>
      let ck := canonicalMIMEHeaderKey k
      match goMapGet h ck with
      | none => h ++ [(ck, [v])]
      | some vv => goMapSet h ck (vv ++ [v])

/-- `http.Header.Set`: canonicalise the key and replace the entry with the
single value. -/
def headerSet (h : Header) (k v : String) : Header :=
  goMapSet h (canonicalMIMEHeaderKey k) [v]

/-- `ignoredHeaders` from the fetcher: inbound headers never forwarded. -/
def ignoredHeaders : List String :=
  ["Accept-Encoding", "Connection", "Content-Length", "Content-Type", "User-Agent"]

/-- `copyHeaders`: copy every inbound entry whose key is not in the ignored
set into the outbound header map. -/
def copyHeaders : Header → Header → Header
  | dst, [] => dst
  | dst, (k, vv) :: rest =>
      if ignoredHeaders.contains k then copyHeaders dst rest
      else copyHeaders (vv.foldl (fun d v => headerAdd d k v) dst) rest

/-- The header shaping performed by `fetchGet` on a fresh outbound request:
copy the non-ignored inbound headers, set `Accept`, and set `authorization`
to the bearer token only when the token is nonempty. -/
def fetchGetHeaders (token : String) (headers : Header) : Header :=
  let h := copyHeaders [] headers
  let h := headerSet h "Accept" "application/json"
  if token = "" then h else headerSet h "authorization" ("Bearer " ++ token)

/-! ## URL composition (`combineURL`) -/

/-- `combineURL` from the source: empty `uri` becomes `/`, a missing leading
slash is prepended, and one trailing slash of `base` is dropped.  The Go code
evaluates `base[len(base)-1:]`, which panics on an empty `base`; the panic is
modelled as `none`. -/
def combineURL (base uri : String) : Option String :=
  let uri := if uri.data = [] then ['/'] else uri.data
  let uri := if uri.head? = some '/' then uri else '/' :: uri
  if base.data = [] then none
  else
    let hasSlash := base.data.getLast? = some '/'
    some (String.mk (if hasSlash then base.data.dropLast ++ uri else base.data ++ uri))

/-- Modelled from the spec's words in §6: treat an empty path as `/`, ensure
the path starts with `/`, strip a single trailing `/` from the base, and
concatenate, leaving exactly the ensured slash between the two parts. -/
def combineURLSpec (base path : String) : String :=
  let path := if path = "" then "/" else path
  let path := if ['/'].isPrefixOf path.data then path.data else '/' :: path.data
  let base := if ['/'].isSuffixOf base.data then base.data.dropLast else base.data
  String.mk (base ++ path)

/-! ## Feature flag merging (`combineFeatureLists`) -/

/-- `featureFlag`: one `(name, enabled)` entry of a feature list. -/
structure FeatureFlag where
  name : String
  enabled : Bool
deriving DecidableEq

/-- `featureFetchResult`: the outcome one contributor sent on the channel; a
failed fetch carries the error and no data. -/
structure FeatureFetchResult where
  err : Option String
  data : List FeatureFlag
deriving DecidableEq

/-- The inner loop of `combineFeatureLists`: `flags[name] = flags[name] || enabled`
for every flag of one contributor (an absent key reads as `false`). -/
def mergeFlagList (flags : List (String × Bool)) : List FeatureFlag → List (String × Bool)
  | [] => flags
  | flag :: rest =>
      mergeFlagList (goMapSet flags flag.name ((goMapGet flags flag.name).getD false || flag.enabled)) rest

/-- `combineFeatureLists`: fold every successful contributor into the flags
map; failed contributors are logged and skipped.  The Go code then emits the
map in (unspecified) map-iteration order, so the map itself is the outcome. -/
def combineFeatureLists (results : List FeatureFetchResult) : List (String × Bool) :=
  results.foldl (fun flags j => if j.err.isSome then flags else mergeFlagList flags j.data) []

/-- Whether some successful contributor mentions `name` at all. -/
def flagMentioned (results : List FeatureFetchResult) (name : String) : Bool :=
  results.any (fun j => j.err.isNone && j.data.any (fun f => f.name = name))

/-- Whether some successful contributor reports `name` as enabled. -/
def flagReportedTrue (results : List FeatureFetchResult) (name : String) : Bool :=
  results.any (fun j => j.err.isNone && j.data.any (fun f => f.name = name && f.enabled))

/-! ## Broadcast-first (`fetchSingletonFromOneEndpoint`, `getOneResponse`, `broadcast`) -/

/-- A Go `[]byte`: `none` is the `nil` slice, distinct from the empty slice. -/
abbrev GoBytes := Option (List Nat)

/-- `len` on a Go byte slice (the `nil` slice has length 0). -/
def goLen : GoBytes → Nat
  | none => 0
  | some l => l.length

/-- `singletonFetchResult` as sent on the channel by one broadcast contributor. -/
structure SingletonFetchResult where
  err : Option String
  data : GoBytes
  statusCode : Int
deriving DecidableEq

/-- `httputil.StatusCodeOK`: a 2xx status. -/
def statusCodeOK (statusCode : Int) : Bool :=
  200 ≤ statusCode && statusCode ≤ 299

/-- `fetchSingletonFromOneEndpoint`, given what `fetchGet` returned for one
backend: a transport error is an error result; a 404 is a success with `nil`
data ("not quite an error"); any other non-2xx is an error result; a 2xx
carries the body. -/
def fetchSingletonFromOneEndpoint (url : String) (fetchErr : Option String)
    (statusCode : Int) (body : List Nat) : SingletonFetchResult :=
  match fetchErr with
  | some e => { err := some e, data := none, statusCode := 0 }
  | none =>
      if statusCode = 404 then { err := none, data := none, statusCode := 404 }
      else if ¬ statusCodeOK statusCode then
        { err := some (url ++ " statusCode " ++ toString statusCode), data := none, statusCode := 0 }
      else { err := none, data := some body, statusCode := statusCode }

/-- The accumulation loop of `getOneResponse` starting from an arbitrary
accumulator: an error result is skipped; while the accumulated body has
length 0 the result's data (possibly `nil`) replaces it. -/
def getOneResponseLoop (ret : GoBytes) : List SingletonFetchResult → GoBytes
  | [] => ret
  | j :: rest =>
      if j.err.isSome then getOneResponseLoop ret rest
      else if goLen ret = 0 then getOneResponseLoop j.data rest
      else getOneResponseLoop ret rest

/-- `getOneResponse`: the accumulator starts as the empty (non-`nil`) slice
`[]byte{}`. -/
def getOneResponse (results : List SingletonFetchResult) : GoBytes :=
  getOneResponseLoop (some []) results

/-- The status the `broadcast` handler writes: 404 exactly when the collected
body is the `nil` slice, 200 otherwise. -/
def broadcastStatus (results : List SingletonFetchResult) : Int :=
  if getOneResponse results = none then 404 else 200

/-- The successful (error-free) contributor results, in processing order. -/
def successes (results : List SingletonFetchResult) : List SingletonFetchResult :=
  results.filter (fun j => j.err.isNone)

/-- The first successful result carrying a non-empty body, if any. -/
def firstNonEmptySuccess (results : List SingletonFetchResult) : Option SingletonFetchResult :=
  results.find? (fun j => j.err.isNone && goLen j.data != 0)

/-- The last successful (error-free) result, if any. -/
def lastSuccess : List SingletonFetchResult → Option SingletonFetchResult
  | [] => none
  | j :: rest =>
      match lastSuccess rest with
      | some jl => some jl
      | none => if j.err.isNone then some j else none

/-! ## Health supervisor (`health.go`) -/

/-- `healthIndicator`: the stored state of one named check (the `checker`
object itself is not part of the observable state). -/
structure HealthIndicator where
  service : String
  healthy : Bool
  message : String
  observeOnly : Bool
  lastChecked : Nat
deriving DecidableEq, Inhabited

/-- `AddCheck`: when an entry with the service name already exists, the loop
writes the new checker and flag into `c`, a by-value copy of the slice
element, so the stored list is left unchanged; otherwise a new indicator is
appended with `healthy = true`, an empty message and `lastChecked = 0`. -/
def addCheck (checks : List HealthIndicator) (service : String) (observeOnly : Bool) :
    List HealthIndicator :=
  if checks.any (fun c => c.service = service) then checks
  else checks ++ [{ service := service, healthy := true, message := "",
                    observeOnly := observeOnly, lastChecked := 0 }]

/-- `removeChecker`: overwrite index `i` with the last element and drop the
last element. -/
def removeChecker (s : List HealthIndicator) (i : Nat) : List HealthIndicator :=
  (s.set i (s.getLastD default)).dropLast

/-- `RemoveCheck`: remove the first entry with the service name via
`removeChecker`; no entry means no change. -/
def removeCheck (checks : List HealthIndicator) (service : String) : List HealthIndicator :=
  match checks.findIdx? (fun c => c.service = service) with
  | none => checks
  | some i => removeChecker checks i

/-- `runChecker`'s updates to its `healthIndicator` parameter: on success
`healthy = true` and message `OK`; on failure `healthy = false` and the
formatted `<service> ERROR <err>` message; either way a fresh `lastChecked`.
The parameter is passed by value, so in Go these writes land on a local copy. -/
def runChecker (checker : HealthIndicator) (checkErr : Option String) (now : Nat) :
    HealthIndicator :=
  match checkErr with
  | none => { checker with healthy := true, message := "OK", lastChecked := now }
  | some err =>
      { checker with healthy := false,
                     message := checker.service ++ " ERROR " ++ err, lastChecked := now }

/-- The aggregate computed at the end of each `RunCheckers` iteration:
the AND of `healthy` over the stored non-observe-only checks. -/
def aggregateHealthy (checks : List HealthIndicator) : Bool :=
  checks.foldl (fun h c => if c.observeOnly then h else h && c.healthy) true

/-- One `RunCheckers` iteration after the sleep: `h.runChecker(h.Checks[nextIndex])`
passes the indicator by value, so the copy updated by `runChecker` is
discarded and the stored list is unchanged; the aggregate is then recomputed
from the stored list. -/
def runCheckersIterate (checks : List HealthIndicator) (idx : Nat)
    (checkErr : Option String) (now : Nat) : List HealthIndicator × Bool :=
  let _discardedCopy := (checks.get? idx).map (fun c => runChecker c checkErr now)
  (checks, aggregateHealthy checks)

/-- The per-tick sleep of `RunCheckers`:
`time.Duration(frequency) * time.Second / time.Duration(count)` in
nanoseconds; integer division by a zero count panics, modelled as `none`. -/
def runCheckersSleepNs (frequency : Int) (count : Nat) : Option Int :=
  if count = 0 then none else some (frequency * 1000000000 / count)

/-- The sleep computed at the top of a `RunCheckers` cycle from the current
check list. -/
def runCheckersFirstSleep (checks : List HealthIndicator) (frequency : Int) : Option Int :=
  runCheckersSleepNs frequency checks.length

/-! ## Backend registry (`ClouddriverManager`, `handleUpdate`) -/

/-- `trackedClouddriver`: the registry's record of one backend; the two health
fields hold the pending error reason, if any. -/
structure TrackedClouddriver where
  Source : String
  Name : String
  URL : String
  UIUrl : String
  AgentName : String
  LastSuccessfulContact : Nat
  Priority : Int
  DisableArtifactAccounts : Bool
  healthcheckURL : String
  token : String
  artifactHealth : Option String
  accountHealth : Option String
deriving DecidableEq

/-- `birger.ServiceUpdate`: one message of the discovery feed. -/
structure ServiceUpdate where
  Operation : String
  Name : String
  AgentName : String
  URL : String
  Token : String
  Annotations : List (String × String)
deriving DecidableEq

/-- `yesno`: case-insensitive `true` or `yes`. -/
def yesno (s : String) : Bool :=
  s.toLower = "true" || s.toLower = "yes"

/-- `strconv.Atoi` as used for the priority annotation: an optional sign
followed by at least one digit parses; anything else yields 0 (with a logged
warning). -/
def goAtoi (s : String) : Int :=
  let p := match s.data with
    | '+' :: t => (false, t)
    | '-' :: t => (true, t)
    | t => (false, t)
  if p.2 = [] || ¬ p.2.all Char.isDigit then 0
  else (if p.1 then -1 else 1) * (p.2.foldl (fun n c => n * 10 + (c.toNat - 48)) (0 : Int))

/-- `makeTrackedClouddriverFromUpdate`: build the registry record for a
discovered backend from an update message. -/
def makeTrackedClouddriverFromUpdate (update : ServiceUpdate) : TrackedClouddriver :=
  let uiUrl := (goMapGet update.Annotations "uiUrl").getD ""
  let disableArtifactAccounts := yesno ((goMapGet update.Annotations "disableArtifactAccounts").getD "")
  let strpri := (goMapGet update.Annotations "priority").getD ""
  let priority := if strpri = "" then 0 else goAtoi strpri
  { Source := "controller", Name := update.Name, URL := update.URL, UIUrl := uiUrl,
    AgentName := update.AgentName, LastSuccessfulContact := 0, Priority := priority,
    DisableArtifactAccounts := disableArtifactAccounts,
    healthcheckURL := update.URL ++ "/health", token := update.Token,
    artifactHealth := if disableArtifactAccounts then none else some "initial sync not yet performed",
    accountHealth := some "initial sync not yet performed" }

/-- The observable registry state `handleUpdate` works on: the backend map
and the registered health checks. -/
structure RegistryState where
  state : List (String × TrackedClouddriver)
  checks : List HealthIndicator
deriving DecidableEq

/-- `handleUpdate`: a `delete` removes the backend and its check; an `update`
inserts (registering a check) or replaces (preserving the last successful
contact and re-registering the check); any other operation falls through
without touching anything. -/
def handleUpdate (update : ServiceUpdate) (r : RegistryState) : RegistryState :=
  let key := "controller:" ++ update.AgentName ++ ":" ++ update.Name
  if update.Operation = "delete" then
    { state := goMapDelete r.state key,
      checks := removeCheck r.checks ("clouddriver " ++ key) }
  else if update.Operation = "update" then
    let tracked := makeTrackedClouddriverFromUpdate update
    match goMapGet r.state key with
    | none =>
        { state := goMapSet r.state key tracked,
          checks := addCheck r.checks ("clouddriver " ++ key) true }
    | some old =>
        let tracked := { tracked with LastSuccessfulContact := old.LastSuccessfulContact }
        { state := goMapSet r.state key tracked,
          checks := addCheck (removeCheck r.checks ("clouddriver " ++ key))
                      ("clouddriver " ++ key) true }
  else r

/-! ## Manager construction and its health check (`MakeClouddriverManager`) -/

/-- `clouddriverConfig`: one statically configured backend. -/
structure ClouddriverConfig where
  Name : String
  URL : String
  HealthcheckURL : String
  Priority : Int
  DisableArtifactAccounts : Bool
deriving DecidableEq

/-- The check registration of `makeTrackedClouddriverFromConfig`: service
`clouddriver config:<name>` with `observeOnly = true`. -/
def configClouddriverCheck (cfg : ClouddriverConfig) (checks : List HealthIndicator) :
    List HealthIndicator :=
  addCheck checks ("clouddriver config:" ++ cfg.Name) true

/-- The health checks registered by `MakeClouddriverManager`: one per
configured clouddriver, then the manager's own `ClouddriverManager` check,
also with `observeOnly = true`. -/
def makeClouddriverManagerChecks (clouddrivers : List ClouddriverConfig) :
    List HealthIndicator :=
  addCheck (clouddrivers.foldl (fun cs cfg => configClouddriverCheck cfg cs) [])
    "ClouddriverManager" true

/-- The manager's `health` field read by its `Check()`: the initial-sync error
until `accountTracker` completes the first `updateAllAccounts`, `nil` after. -/
def clouddriverManagerCheck (firstRefreshDone : Bool) : Option String :=
  if firstRefreshDone then none else some "initial sync not yet performed"

/-! ## Locking structure of the refresh loop and the readers (`part_013`) -/

/-- The observable steps of the routines that touch the `ClouddriverManager`
mutex, in source order. -/
inductive ManagerStep where
  | lockMutex
  | readState
  | networkFanout
  | publishRoutes
  | unlockMutex
deriving DecidableEq

/-- `updateAccounts`: `m.Lock()` with a deferred `m.Unlock()`, read
`m.state` via `getClouddriverURLs`, run the `fetchCreds` network fan-out,
then publish the new routes. -/
def updateAccountsSteps : List ManagerStep :=
  [.lockMutex, .readState, .networkFanout, .publishRoutes, .unlockMutex]

/-- `findCloudRoute`: lock, read the routes map, unlock. -/
def findCloudRouteSteps : List ManagerStep :=
  [.lockMutex, .readState, .unlockMutex]

/-- Whether the mutex is held when step `i` of the trace runs: more locks
than unlocks among the preceding steps. -/
def lockHeldAt (trace : List ManagerStep) (i : Nat) : Bool :=
  (trace.take i).count .lockMutex > (trace.take i).count .unlockMutex

/-- Whether the trace performs its network fan-out while holding the mutex. -/
def networkUnderLock (trace : List ManagerStep) : Bool :=
  (List.range trace.length).any
    (fun i => trace.get? i = some .networkFanout && lockHeldAt trace i)

/-! ## Helper lemmas -/

theorem goMapGet_goMapSet {V : Type} (m : List (String × V)) (k k' : String) (v : V) :
    goMapGet (goMapSet m k v) k' = if k = k' then some v else goMapGet m k' := by
  induction m with
  | nil => simp [goMapSet, goMapGet]
  | cons p rest ih =>
      obtain ⟨k₀, v₀⟩ := p
      by_cases h : k₀ = k
      · subst h
        by_cases h' : k₀ = k' <;> simp [goMapSet, goMapGet, h']
      · by_cases h' : k₀ = k'
        · subst h'
          have hne : ¬ k = k₀ := fun hh => h hh.symm
          simp [goMapSet, goMapGet, h, hne]
        · simp [goMapSet, goMapGet, h, h', ih]

theorem goMapGet_append {V : Type} (m₁ m₂ : List (String × V)) (k : String) :
    goMapGet (m₁ ++ m₂) k =
      match goMapGet m₁ k with
      | some v => some v
      | none => goMapGet m₂ k := by
  induction m₁ with
  | nil => simp [goMapGet]
  | cons p rest ih =>
      obtain ⟨k₀, v₀⟩ := p
      by_cases h : k₀ = k
      · simp [goMapGet, h]
      · simp [goMapGet, h, ih]

theorem keys_goMapSet {V : Type} (m : List (String × V)) (k : String) (v : V) :
    (goMapSet m k v).map Prod.fst =
      if k ∈ m.map Prod.fst then m.map Prod.fst else m.map Prod.fst ++ [k] := by
  induction m with
  | nil => simp [goMapSet]
  | cons p rest ih =>
      obtain ⟨k₀, v₀⟩ := p
      by_cases h : k₀ = k
      · subst h
        simp [goMapSet]
      · have hne : ¬ k = k₀ := fun hh => h hh.symm
        by_cases hmem : k ∈ rest.map Prod.fst
        · simp [goMapSet, h, hne, hmem, ih]
        · simp [goMapSet, h, hne, hmem, ih]

theorem nodup_keys_goMapSet {V : Type} (m : List (String × V)) (k : String) (v : V)
    (h : (m.map Prod.fst).Nodup) : ((goMapSet m k v).map Prod.fst).Nodup := by
  rw [keys_goMapSet]
  by_cases hmem : k ∈ m.map Prod.fst
  · simpa [hmem] using h
  · simp only [hmem, if_false]
    refine List.Nodup.append h (List.nodup_singleton k) ?_
    intro a ha hb
    simp at hb
    subst hb
    exact hmem ha

theorem countName_append (acc : List TrackedSpinnakerAccount)
    (a : TrackedSpinnakerAccount) (name : String) :
    countName (acc ++ [a]) name =
      countName acc name + (if a.Name = name then 1 else 0) := by
  by_cases h : a.Name = name <;> simp [countName, h]

theorem mergeIfUnique_routes_get (accounts : List TrackedSpinnakerAccount)
    (cd : URLAndPriority) (routes : RoutesMap) (acc : List TrackedSpinnakerAccount)
    (name : String) :
    goMapGet (mergeIfUnique cd accounts routes acc).1 name =
      if accounts.any (fun a => a.Name = name) then
        match goMapGet routes name with
        | none => some cd
        | some cur => some (if cur.Priority < cd.Priority then cd else cur)
      else goMapGet routes name := by
  induction accounts generalizing routes acc with
  | nil => simp [mergeIfUnique]
  | cons a rest ih =>
      by_cases ha : a.Name = name
      · subst ha
        cases hcur : goMapGet routes a.Name with
        | none =>
            simp only [mergeIfUnique, hcur, ih, goMapGet_goMapSet, if_pos rfl]
            by_cases hrest : rest.any (fun x => x.Name = a.Name) <;>
              simp [hrest, lt_irrefl]
        | some cur =>
            by_cases hlt : cur.Priority < cd.Priority
            · simp only [mergeIfUnique, hcur, if_pos hlt, ih, goMapGet_goMapSet, if_pos rfl]
              by_cases hrest : rest.any (fun x => x.Name = a.Name) <;>
                simp [hrest, lt_irrefl]
            · simp only [mergeIfUnique, hcur, if_neg hlt, ih]
              by_cases hrest : rest.any (fun x => x.Name = a.Name) <;>
                simp [hrest, hcur, hlt]
      · cases hcur : goMapGet routes a.Name with
        | none =>
            have hget : goMapGet (goMapSet routes a.Name cd) name = goMapGet routes name := by
              rw [goMapGet_goMapSet, if_neg ha]
            simp [mergeIfUnique, hcur, ih, hget, ha]
        | some cur =>
            by_cases hlt : cur.Priority < cd.Priority
            · have hget : goMapGet (goMapSet routes a.Name cd) name = goMapGet routes name := by
                rw [goMapGet_goMapSet, if_neg ha]
              simp [mergeIfUnique, hcur, hlt, ih, hget, ha]
            · simp [mergeIfUnique, hcur, hlt, ih, ha]

theorem mergeIfUnique_count (accounts : List TrackedSpinnakerAccount)
    (cd : URLAndPriority) (routes : RoutesMap) (acc : List TrackedSpinnakerAccount)
    (name : String) :
    countName (mergeIfUnique cd accounts routes acc).2 name =
      countName acc name +
        (if accounts.any (fun a => a.Name = name) ∧ goMapGet routes name = none
         then 1 else 0) := by
  induction accounts generalizing routes acc with
  | nil => simp [mergeIfUnique]
  | cons a rest ih =>
      by_cases ha : a.Name = name
      · subst ha
        cases hcur : goMapGet routes a.Name with
        | none =>
            have hget : goMapGet (goMapSet routes a.Name cd) a.Name = some cd := by
              rw [goMapGet_goMapSet, if_pos rfl]
            simp [mergeIfUnique, hcur, ih, hget, countName_append]
        | some cur =>
            by_cases hlt : cur.Priority < cd.Priority
            · have hget : goMapGet (goMapSet routes a.Name cd) a.Name = some cd := by
                rw [goMapGet_goMapSet, if_pos rfl]
              simp [mergeIfUnique, hcur, hlt, ih, hget]
            · simp [mergeIfUnique, hcur, hlt, ih]
      · cases hcur : goMapGet routes a.Name with
        | none =>
            have hget : goMapGet (goMapSet routes a.Name cd) name = goMapGet routes name := by
              rw [goMapGet_goMapSet, if_neg ha]
            simp [mergeIfUnique, hcur, ih, hget, ha, countName_append]
        | some cur =>
            by_cases hlt : cur.Priority < cd.Priority
            · have hget : goMapGet (goMapSet routes a.Name cd) name = goMapGet routes name := by
                rw [goMapGet_goMapSet, if_neg ha]
              simp [mergeIfUnique, hcur, hlt, ih, hget, ha]
            · simp [mergeIfUnique, hcur, hlt, ih, ha]

theorem advertisers_cons (name : String) (resp : URLAndPriority × List TrackedSpinnakerAccount)
    (rest : List (URLAndPriority × List TrackedSpinnakerAccount)) :
    advertisers name (resp :: rest) =
      if resp.2.any (fun a => a.Name = name) then resp.1 :: advertisers name rest
      else advertisers name rest := by
  by_cases h : resp.2.any (fun a => a.Name = name) <;> simp [advertisers, h]

theorem fetchCredsLoop_get (resps : List (URLAndPriority × List TrackedSpinnakerAccount))
    (routes : RoutesMap) (acc : List TrackedSpinnakerAccount) (name : String) :
    goMapGet ((resps.foldl (fun st resp => mergeIfUnique resp.1 resp.2 st.1 st.2)
        (routes, acc)).1) name =
      pickWinner (goMapGet routes name) (advertisers name resps) := by
  induction resps generalizing routes acc with
  | nil => simp [advertisers, pickWinner]
  | cons resp rest ih =>
      rw [List.foldl_cons, advertisers_cons]
      have hmerge := mergeIfUnique_routes_get resp.2 resp.1 routes acc name
      by_cases h : resp.2.any (fun a => a.Name = name)
      · rw [if_pos h] at hmerge
        rw [if_pos h]
        cases hcur : goMapGet routes name with
        | none =>
            rw [hcur] at hmerge
            have := ih (mergeIfUnique resp.1 resp.2 routes acc).1
              (mergeIfUnique resp.1 resp.2 routes acc).2
            simp only [Prod.mk.eta] at this
            rw [this, hmerge]
            rfl
        | some cur =>
            rw [hcur] at hmerge
            have := ih (mergeIfUnique resp.1 resp.2 routes acc).1
              (mergeIfUnique resp.1 resp.2 routes acc).2
            simp only [Prod.mk.eta] at this
            rw [this, hmerge]
            rfl
      · rw [if_neg h] at hmerge
        rw [if_neg h]
        have := ih (mergeIfUnique resp.1 resp.2 routes acc).1
          (mergeIfUnique resp.1 resp.2 routes acc).2
        simp only [Prod.mk.eta] at this
        rw [this, hmerge]

theorem fetchCredsLoop_count (resps : List (URLAndPriority × List TrackedSpinnakerAccount))
    (routes : RoutesMap) (acc : List TrackedSpinnakerAccount) (name : String) :
    countName ((resps.foldl (fun st resp => mergeIfUnique resp.1 resp.2 st.1 st.2)
        (routes, acc)).2) name =
      countName acc name +
        (if advertisers name resps ≠ [] ∧ goMapGet routes name = none then 1 else 0) := by
  induction resps generalizing routes acc with
  | nil => simp [advertisers]
  | cons resp rest ih =>
      rw [List.foldl_cons, advertisers_cons]
      have hmerge := mergeIfUnique_routes_get resp.2 resp.1 routes acc name
      have hcount := mergeIfUnique_count resp.2 resp.1 routes acc name
      have hrec := ih (mergeIfUnique resp.1 resp.2 routes acc).1
        (mergeIfUnique resp.1 resp.2 routes acc).2
      simp only [Prod.mk.eta] at hrec
      by_cases h : resp.2.any (fun a => a.Name = name)
      · rw [if_pos h] at hmerge
        rw [if_pos h]
        simp only [h, eq_self_iff_true, true_and] at hcount
        cases hcur : goMapGet routes name with
        | none =>
            rw [hcur] at hmerge hcount
            simp only [if_pos rfl] at hcount
            rw [hrec, hcount, hmerge]
            simp
        | some cur =>
            rw [hcur] at hmerge hcount
            simp at hcount
            rw [hrec, hcount, hmerge]
            simp
      · rw [if_neg h] at hmerge
        rw [if_neg h]
        simp [h] at hcount
        rw [hrec, hcount, hmerge]

theorem pickWinner_eq_foldl (l : List URLAndPriority) (best : URLAndPriority) :
    pickWinner (some best) l =
      some (l.foldl (fun b cd => if b.Priority < cd.Priority then cd else b) best) := by
  induction l generalizing best with
  | nil => rfl
  | cons cd rest ih => simp [pickWinner, ih]

theorem pickWinner_max (l : List URLAndPriority) (best : URLAndPriority) :
    best.Priority ≤ (l.foldl (fun b cd => if b.Priority < cd.Priority then cd else b)
        best).Priority
    ∧ ∀ cd ∈ l, cd.Priority ≤
        (l.foldl (fun b cd => if b.Priority < cd.Priority then cd else b) best).Priority := by
  induction l generalizing best with
  | nil => simp
  | cons cd rest ih =>
      simp only [List.foldl_cons, List.mem_cons]
      by_cases h : best.Priority < cd.Priority
      · simp only [if_pos h]
        refine ⟨le_of_lt (lt_of_lt_of_le h (ih cd).1), ?_⟩
        intro x hx
        rcases hx with hx | hx
        · rw [hx]
          exact (ih cd).1
        · exact (ih cd).2 x hx
      · simp only [if_neg h]
        refine ⟨(ih best).1, ?_⟩
        intro x hx
        rcases hx with hx | hx
        · rw [hx]
          exact le_trans (not_lt.mp h) (ih best).1
        · exact (ih best).2 x hx

theorem pickWinner_first (l : List URLAndPriority) (best : URLAndPriority) :
    ((best :: l).find? (fun cd =>
        decide ((l.foldl (fun b cd => if b.Priority < cd.Priority then cd else b)
          best).Priority ≤ cd.Priority)))
      = some (l.foldl (fun b cd => if b.Priority < cd.Priority then cd else b) best) := by
  induction l generalizing best with
  | nil => simp [List.find?]
  | cons cd rest ih =>
      simp only [List.foldl_cons]
      by_cases h : best.Priority < cd.Priority
      · simp only [if_pos h]
        have hmax := (pickWinner_max rest cd).1
        have hbest : ¬ ((rest.foldl (fun b cd => if b.Priority < cd.Priority then cd else b)
            cd).Priority ≤ best.Priority) :=
          not_le.mpr (lt_of_lt_of_le h hmax)
        have := ih cd
        rw [List.find?_cons_of_neg _ (by simpa using hbest)]
        exact this
      · simp only [if_neg h]
        have := ih best
        by_cases hb : (rest.foldl (fun b cd => if b.Priority < cd.Priority then cd else b)
            best).Priority ≤ best.Priority
        · rw [List.find?_cons_of_pos _ (by simpa using hb)] at this ⊢
          exact this
        · rw [List.find?_cons_of_neg _ (by simpa using hb)] at this
          rw [List.find?_cons_of_neg _ (by simpa using hb)]
          have hcd : ¬ ((rest.foldl (fun b cd => if b.Priority < cd.Priority then cd else b)
              best).Priority ≤ cd.Priority) := by
            intro hle
            exact hb (le_trans hle (not_lt.mp h))
          rw [List.find?_cons_of_neg _ (by simpa using hcd)]
          exact this

theorem perm_any {α : Type} (p : α → Bool) {l₁ l₂ : List α} (h : l₁.Perm l₂) :
    l₁.any p = l₂.any p := by
  cases hb : l₂.any p
  · rw [List.any_eq_false] at hb ⊢
    intro x hx
    exact hb x (h.mem_iff.mp hx)
  · rw [List.any_eq_true] at hb ⊢
    obtain ⟨x, hx, hp⟩ := hb
    exact ⟨x, h.mem_iff.mpr hx, hp⟩

theorem reported_imp_mentioned (l : List FeatureFlag) (name : String)
    (h : (l.any fun f => f.name = name) = false) :
    (l.any fun f => f.name = name && f.enabled) = false := by
  rw [List.any_eq_false] at h ⊢
  intro f hf
  simp only [Bool.and_eq_true, decide_eq_true_eq, not_and]
  intro hname
  exact absurd (by simpa using hname) (by simpa using h f hf)

theorem mergeFlagList_get (data : List FeatureFlag) (flags : List (String × Bool))
    (name : String) :
    goMapGet (mergeFlagList flags data) name =
      if data.any (fun f => f.name = name) then
        some ((goMapGet flags name).getD false
          || data.any (fun f => f.name = name && f.enabled))
      else goMapGet flags name := by
  induction data generalizing flags with
  | nil => simp [mergeFlagList]
  | cons f rest ih =>
      by_cases hf : f.name = name
      · have hget : goMapGet (goMapSet flags f.name ((goMapGet flags f.name).getD false
            || f.enabled)) name = some ((goMapGet flags name).getD false || f.enabled) := by
          rw [goMapGet_goMapSet, if_pos hf, hf]
        rw [mergeFlagList, ih, hget]
        by_cases hrest : rest.any (fun f' => f'.name = name)
        · simp [hf, hrest, Bool.or_assoc]
        · simp [hf, hrest, reported_imp_mentioned rest name (by simpa using hrest)]
      · have hget : goMapGet (goMapSet flags f.name ((goMapGet flags f.name).getD false
            || f.enabled)) name = goMapGet flags name := by
          rw [goMapGet_goMapSet, if_neg hf]
        rw [mergeFlagList, ih, hget]
        simp [hf]

theorem flagMentioned_cons (j : FeatureFetchResult) (rest : List FeatureFetchResult)
    (name : String) :
    flagMentioned (j :: rest) name =
      ((j.err.isNone && j.data.any fun f => f.name = name) || flagMentioned rest name) := by
  simp [flagMentioned]

theorem flagReportedTrue_cons (j : FeatureFetchResult) (rest : List FeatureFetchResult)
    (name : String) :
    flagReportedTrue (j :: rest) name =
      ((j.err.isNone && j.data.any fun f => f.name = name && f.enabled)
        || flagReportedTrue rest name) := by
  simp [flagReportedTrue]

theorem flagReportedTrue_of_not_mentioned (rs : List FeatureFetchResult) (name : String)
    (h : flagMentioned rs name = false) : flagReportedTrue rs name = false := by
  rw [flagMentioned, List.any_eq_false] at h
  rw [flagReportedTrue, List.any_eq_false]
  intro j hj
  have hjm := h j hj
  cases hn : j.err.isNone
  · simp [hn]
  · simp only [hn, Bool.true_and] at hjm ⊢
    have hmf : (j.data.any fun f => f.name = name) = false := by
      cases hh : j.data.any fun f => f.name = name
      · rfl
      · exact absurd hh hjm
    simpa using reported_imp_mentioned j.data name hmf

theorem combineFeatureListsLoop_get (results : List FeatureFetchResult)
    (flags : List (String × Bool)) (name : String) :
    goMapGet (results.foldl
        (fun fl j => if j.err.isSome then fl else mergeFlagList fl j.data) flags) name =
      if flagMentioned results name then
        some ((goMapGet flags name).getD false || flagReportedTrue results name)
      else goMapGet flags name := by
  induction results generalizing flags with
  | nil => simp [flagMentioned]
  | cons j rest ih =>
      rw [List.foldl_cons, flagMentioned_cons, flagReportedTrue_cons]
      cases herr : j.err with
      | some e =>
          simp only [herr, Option.isSome_some, if_true, Option.isNone_some,
            Bool.false_and, Bool.false_or]
          exact ih flags
      | none =>
          simp only [herr, Option.isSome_none, Bool.false_eq_true, if_false,
            Option.isNone_none, Bool.true_and]
          rw [ih, mergeFlagList_get]
          by_cases hj : j.data.any (fun f => f.name = name)
          · have hjtrue : (j.data.any fun f => f.name = name) = true := hj
            by_cases hrest : flagMentioned rest name
            · rw [if_pos hj, if_pos hrest, if_pos (by simp [hjtrue])]
              simp [Bool.or_assoc]
            · have hrf : flagMentioned rest name = false := by simpa using hrest
              rw [if_pos hj, if_neg hrest, if_pos (by simp [hjtrue])]
              simp [flagReportedTrue_of_not_mentioned rest name hrf]
          · have hjf : (j.data.any fun f => f.name = name) = false := by simpa using hj
            have hjrf := reported_imp_mentioned j.data name hjf
            by_cases hrest : flagMentioned rest name
            · have hrtrue : flagMentioned rest name = true := hrest
              rw [if_neg hj, if_pos hrest, if_pos (by simp [hjf, hrtrue])]
              simp [hjrf]
            · have hrf : flagMentioned rest name = false := by simpa using hrest
              rw [if_neg hj, if_neg hrest, if_neg (by simp [hjf, hrf])]

theorem combineFeatureLists_get (results : List FeatureFetchResult) (name : String) :
    goMapGet (combineFeatureLists results) name =
      if flagMentioned results name then some (flagReportedTrue results name) else none := by
  have h := combineFeatureListsLoop_get results [] name
  simp only [goMapGet, Option.getD_none, Bool.false_or] at h
  exact h

theorem nodup_keys_mergeFlagList (data : List FeatureFlag) (flags : List (String × Bool))
    (h : (flags.map Prod.fst).Nodup) : ((mergeFlagList flags data).map Prod.fst).Nodup := by
  induction data generalizing flags with
  | nil => exact h
  | cons f rest ih => exact ih _ (nodup_keys_goMapSet flags f.name _ h)

theorem nodup_keys_combineFeatureListsLoop (results : List FeatureFetchResult)
    (flags : List (String × Bool)) (h : (flags.map Prod.fst).Nodup) :
    (((results.foldl
        (fun fl j => if j.err.isSome then fl else mergeFlagList fl j.data) flags)).map
      Prod.fst).Nodup := by
  induction results generalizing flags with
  | nil => exact h
  | cons j rest ih =>
      rw [List.foldl_cons]
      by_cases herr : j.err.isSome
      · rw [if_pos herr]
        exact ih _ h
      · rw [if_neg herr]
        exact ih _ (nodup_keys_mergeFlagList j.data flags h)

theorem getOneResponseLoop_stable (ret : GoBytes) (rs : List SingletonFetchResult)
    (h : goLen ret ≠ 0) : getOneResponseLoop ret rs = ret := by
  induction rs with
  | nil => rfl
  | cons j rest ih =>
      by_cases herr : j.err.isSome
      · simp [getOneResponseLoop, herr, ih]
      · simp [getOneResponseLoop, herr, h, ih]

theorem getOneResponseLoop_char (rs : List SingletonFetchResult) (ret : GoBytes)
    (h : goLen ret = 0) :
    getOneResponseLoop ret rs =
      match firstNonEmptySuccess rs with
      | some j => j.data
      | none =>
          match lastSuccess rs with
          | some jl => jl.data
          | none => ret := by
  induction rs generalizing ret with
  | nil => rfl
  | cons j rest ih =>
      cases herr : j.err with
      | some e =>
          have h1 : getOneResponseLoop ret (j :: rest) = getOneResponseLoop ret rest := by
            simp [getOneResponseLoop, herr]
          have h2 : firstNonEmptySuccess (j :: rest) = firstNonEmptySuccess rest := by
            simp [firstNonEmptySuccess, List.find?, herr]
          have h3 : lastSuccess (j :: rest) = lastSuccess rest := by
            rw [lastSuccess]
            cases lastSuccess rest <;> simp [herr]
          rw [h1, ih ret h, h2, h3]
      | none =>
          by_cases hne : goLen j.data = 0
          · have h1 : getOneResponseLoop ret (j :: rest) = getOneResponseLoop j.data rest := by
              simp [getOneResponseLoop, herr, h]
            have h2 : firstNonEmptySuccess (j :: rest) = firstNonEmptySuccess rest := by
              simp [firstNonEmptySuccess, List.find?, herr, hne]
            rw [h1, ih j.data hne, h2, lastSuccess]
            cases hls : lastSuccess rest with
            | some jl => simp
            | none => simp [herr]
          · have h1 : getOneResponseLoop ret (j :: rest) = getOneResponseLoop j.data rest := by
              simp [getOneResponseLoop, herr, h]
            have hb : (goLen j.data != 0) = true := by simpa using hne
            have h2 : firstNonEmptySuccess (j :: rest) = some j := by
              simp [firstNonEmptySuccess, List.find?, herr, hb]
            rw [h1, getOneResponseLoop_stable j.data rest hne, h2]

theorem getOneResponse_char (rs : List SingletonFetchResult) :
    getOneResponse rs =
      match firstNonEmptySuccess rs with
      | some j => j.data
      | none =>
          match lastSuccess rs with
          | some jl => jl.data
          | none => some [] :=
  getOneResponseLoop_char rs (some []) rfl

theorem goMapGet_eq_none_of_not_mem_keys {V : Type} (m : List (String × V)) (k : String)
    (h : k ∉ m.map Prod.fst) : goMapGet m k = none := by
  induction m with
  | nil => rfl
  | cons p rest ih =>
      obtain ⟨k₀, v₀⟩ := p
      simp only [List.map_cons, List.mem_cons, not_or] at h
      rw [goMapGet, if_neg (fun he => h.1 he.symm)]
      exact ih h.2

theorem headerAdd_get (h : Header) (k v k' : String)
    (hk : canonicalMIMEHeaderKey k = k) :
    goMapGet (headerAdd h k v) k' =
      if k = k' then some ((goMapGet h k).getD [] ++ [v]) else goMapGet h k' := by
  rw [headerAdd, hk]
  cases hg : goMapGet h k with
  | none =>
      rw [goMapGet_append]
      by_cases hkk : k = k'
      · subst hkk
        rw [hg, if_pos rfl]
        simp [goMapGet]
      · rw [if_neg hkk]
        cases hg' : goMapGet h k' with
        | some vv => rfl
        | none => simp [goMapGet, fun he => hkk he]
  | some vv =>
      rw [goMapGet_goMapSet]
      simp

theorem headerAddFold_get (vv : List String) (h : Header) (k k' : String)
    (hk : canonicalMIMEHeaderKey k = k) (hne : vv ≠ []) :
    goMapGet (vv.foldl (fun d v => headerAdd d k v) h) k' =
      if k = k' then some ((goMapGet h k).getD [] ++ vv) else goMapGet h k' := by
  induction vv generalizing h with
  | nil => cases hne rfl
  | cons v rest ih =>
      rw [List.foldl_cons]
      by_cases hr : rest = []
      · subst hr
        rw [List.foldl_nil, headerAdd_get h k v k' hk]
      · rw [ih (headerAdd h k v) hr]
        by_cases hkk : k = k'
        · rw [if_pos hkk, if_pos hkk, headerAdd_get h k v k hk, if_pos rfl]
          simp
        · rw [if_neg hkk, if_neg hkk, headerAdd_get h k v k' hk, if_neg hkk]

theorem copyHeaders_get (src : Header) (dst : Header) (k : String)
    (hcanon : ∀ p ∈ src, canonicalMIMEHeaderKey p.1 = p.1)
    (hvals : ∀ p ∈ src, p.2 ≠ [])
    (hnodup : (src.map Prod.fst).Nodup)
    (hfresh : ∀ p ∈ src, goMapGet dst p.1 = none) :
    goMapGet (copyHeaders dst src) k =
      if ignoredHeaders.contains k then goMapGet dst k
      else
        match goMapGet src k with
        | some vv => some vv
        | none => goMapGet dst k := by
  induction src generalizing dst with
  | nil =>
      by_cases hig : ignoredHeaders.contains k <;> simp [copyHeaders, goMapGet, hig]
  | cons p rest ih =>
      obtain ⟨k₀, vv₀⟩ := p
      have hk₀ : canonicalMIMEHeaderKey k₀ = k₀ := hcanon (k₀, vv₀) (by simp)
      have hv₀ : vv₀ ≠ [] := hvals (k₀, vv₀) (by simp)
      have hcanon' : ∀ p ∈ rest, canonicalMIMEHeaderKey p.1 = p.1 :=
        fun p hp => hcanon p (by simp [hp])
      have hvals' : ∀ p ∈ rest, p.2 ≠ [] := fun p hp => hvals p (by simp [hp])
      have hnodup' : (rest.map Prod.fst).Nodup := by
        rw [List.map_cons, List.nodup_cons] at hnodup
        exact hnodup.2
      have hk₀rest : k₀ ∉ rest.map Prod.fst := by
        rw [List.map_cons, List.nodup_cons] at hnodup
        exact hnodup.1
      rw [copyHeaders]
      by_cases hig0 : ignoredHeaders.contains k₀
      · rw [if_pos hig0]
        rw [ih dst hcanon' hvals' hnodup' (fun p hp => hfresh p (by simp [hp]))]
        by_cases hk0k : k₀ = k
        · subst hk0k
          rw [if_pos hig0, if_pos hig0]
        · by_cases hig : ignoredHeaders.contains k
          · rw [if_pos hig, if_pos hig]
          · rw [if_neg hig, if_neg hig, goMapGet, if_neg hk0k]
      · rw [if_neg hig0]
        have hfresh' : ∀ p ∈ rest,
            goMapGet (vv₀.foldl (fun d v => headerAdd d k₀ v) dst) p.1 = none := by
          intro p hp
          rw [headerAddFold_get vv₀ dst k₀ p.1 hk₀ hv₀]
          have hne : k₀ ≠ p.1 := fun he => hk₀rest (he ▸ List.mem_map_of_mem Prod.fst hp)
          rw [if_neg hne]
          exact hfresh p (by simp [hp])
        rw [ih (vv₀.foldl (fun d v => headerAdd d k₀ v) dst) hcanon' hvals' hnodup' hfresh']
        by_cases hig : ignoredHeaders.contains k
        · rw [if_pos hig, if_pos hig]
          have hkk : k₀ ≠ k := fun he => hig0 (he ▸ hig)
          rw [headerAddFold_get vv₀ dst k₀ k hk₀ hv₀, if_neg hkk]
        · rw [if_neg hig, if_neg hig]
          by_cases hk0k : k₀ = k
          · subst hk0k
            have hfr : goMapGet dst k₀ = none := hfresh (k₀, vv₀) (by simp)
            have hrest0 : goMapGet rest k₀ = none :=
              goMapGet_eq_none_of_not_mem_keys rest k₀ hk₀rest
            rw [hrest0, goMapGet, if_pos rfl,
              headerAddFold_get vv₀ dst k₀ k₀ hk₀ hv₀, if_pos rfl, hfr]
            simp
          · rw [goMapGet, if_neg hk0k]
            cases hr : goMapGet rest k with
            | some vv => rfl
            | none =>
                rw [headerAddFold_get vv₀ dst k₀ k hk₀ hv₀, if_neg hk0k]

theorem headerSet_get (h : Header) (k v k' : String) :
    goMapGet (headerSet h k v) k' =
      if canonicalMIMEHeaderKey k = k' then some [v] else goMapGet h k' := by
  rw [headerSet, goMapGet_goMapSet]

theorem string_eq_empty_of_data_eq_nil (s : String) (h : s.data = []) : s = "" := by
  cases s with
  | mk l => exact congrArg String.mk h

theorem slash_isPrefixOf_iff (l : List Char) :
    (['/'].isPrefixOf l) = true ↔ l.head? = some '/' := by
  cases l with
  | nil => simp [List.isPrefixOf]
  | cons c rest =>
      simp only [List.isPrefixOf, List.head?, Bool.and_eq_true, beq_iff_eq,
        Option.some_inj]
      constructor
      · rintro ⟨h1, -⟩
        exact h1.symm
      · intro h1
        exact ⟨h1.symm, by simp [List.isPrefixOf]⟩

theorem slash_isSuffixOf_iff (l : List Char) :
    (['/'].isSuffixOf l) = true ↔ l.getLast? = some '/' := by
  rw [List.isSuffixOf, show (['/'] : List Char).reverse = ['/'] from rfl,
    slash_isPrefixOf_iff, List.head?_reverse]

end Stormdriver

namespace Stormdriver

/-! ## C2: forwarded header shaping -/

/-- C2 counterexample: `copyHeaders` does not strip an inbound
`Authorization` header (it is not in the ignored set), so for a backend with
an empty bearer token — where nothing is injected — `fetchGet` still forwards
the client's own `Authorization` header to the backend. -/
theorem fetchGetHeaders_forwards_client_authorization :
    goMapGet (fetchGetHeaders "" [("Authorization", ["Bearer client-secret"])])
        "Authorization" = some ["Bearer client-secret"] := rfl

/-- C2 [corrected]: for every inbound request header map (canonical keys,
each with at least one value, as Go's server produces), the headers forwarded
by `fetchGet` contain no element of the ignored set, and they contain an
`Authorization` header exactly as follows: with a nonempty bearer token it is
the injected `Bearer <token>` value, and with an empty token it is whatever
`Authorization` header the inbound request itself carried. -/
theorem fetchGetHeaders_spec (token : String) (src : Header)
    (hcanon : ∀ p ∈ src, canonicalMIMEHeaderKey p.1 = p.1)
    (hvals : ∀ p ∈ src, p.2 ≠ [])
    (hnodup : (src.map Prod.fst).Nodup) :
    (∀ k ∈ ignoredHeaders, goMapGet (fetchGetHeaders token src) k = none)
    ∧ goMapGet (fetchGetHeaders token src) "Authorization" =
        (if token = "" then goMapGet src "Authorization"
         else some ["Bearer " ++ token]) := by
  have hcopy : ∀ k, goMapGet (copyHeaders [] src) k =
      if ignoredHeaders.contains k then (none : Option (List String))
      else
        match goMapGet src k with
        | some vv => some vv
        | none => none :=
    fun k => copyHeaders_get src [] k hcanon hvals hnodup (fun p _ => rfl)
  constructor
  · intro k hk
    simp only [ignoredHeaders, List.mem_cons, List.not_mem_nil, or_false] at hk
    have hmain : goMapGet (copyHeaders [] src) k = none := by
      rcases hk with rfl | rfl | rfl | rfl | rfl <;>
        rw [hcopy, if_pos (by decide)]
    have haccept : goMapGet (headerSet (copyHeaders [] src) "Accept" "application/json") k
        = none := by
      rw [headerSet_get]
      rcases hk with rfl | rfl | rfl | rfl | rfl <;>
        rw [if_neg (by decide), hmain]
    by_cases ht : token = ""
    · simp only [fetchGetHeaders, if_pos ht]
      exact haccept
    · simp only [fetchGetHeaders, if_neg ht]
      rw [headerSet_get]
      rcases hk with rfl | rfl | rfl | rfl | rfl <;>
        rw [if_neg (by decide), haccept]
  · by_cases ht : token = ""
    · simp only [fetchGetHeaders, if_pos ht]
      rw [headerSet_get,
        if_neg (by decide : ¬ (canonicalMIMEHeaderKey "Accept" = "Authorization")),
        hcopy "Authorization",
        if_neg (by decide : ¬ (ignoredHeaders.contains "Authorization" = true))]
      cases goMapGet src "Authorization" <;> rfl
    · simp only [fetchGetHeaders, if_neg ht]
      rw [headerSet_get,
        if_pos (by decide : canonicalMIMEHeaderKey "authorization" = "Authorization")]

/-- C2 witness: a concrete canonical inbound header map with a nonempty
token: the ignored `Connection` header is dropped and `Authorization` is the
injected bearer token. -/
theorem fetchGetHeaders_spec_witness :
    goMapGet (fetchGetHeaders "tok"
        [("X-Spinnaker-User", ["anonymous"]), ("Connection", ["keep-alive"])])
      "Connection" = none
    ∧ goMapGet (fetchGetHeaders "tok"
        [("X-Spinnaker-User", ["anonymous"]), ("Connection", ["keep-alive"])])
      "Authorization" =
        (if ("tok" : String) = "" then
          goMapGet [("X-Spinnaker-User", ["anonymous"]), ("Connection", ["keep-alive"])]
            "Authorization"
         else some ["Bearer " ++ "tok"]) :=
  ⟨(fetchGetHeaders_spec "tok"
      [("X-Spinnaker-User", ["anonymous"]), ("Connection", ["keep-alive"])]
      (by decide) (by decide) (by decide)).1 "Connection" (by decide),
   (fetchGetHeaders_spec "tok"
      [("X-Spinnaker-User", ["anonymous"]), ("Connection", ["keep-alive"])]
      (by decide) (by decide) (by decide)).2⟩

/-! ## C6: URL composition -/

/-- C6 counterexample: on an empty base the Go code evaluates
`base[len(base)-1:]`, a slice with negative lower bound, and panics: for
`base = ""` the function returns nothing at all rather than the join the
claim promises for all input strings. -/
theorem combineURL_empty_base_panics : combineURL "" "/x" = none := rfl

/-- C6 [corrected]: for every nonempty base, `combineURL` returns exactly the
spec's join: the empty path becomes `/`, a missing leading slash is
prepended, a single trailing slash of the base is stripped, and the two parts
are concatenated with the single ensured separator between them; on an empty
base the code panics instead of returning. -/
theorem combineURL_eq_spec (base uri : String) (h : base ≠ "") :
    combineURL base uri = some (combineURLSpec base uri) := by
  have hbd : base.data ≠ [] := fun hd => h (string_eq_empty_of_data_eq_nil base hd)
  have hpath : (if uri = "" then ("/" : String) else uri).data
      = (if uri.data = [] then ['/'] else uri.data) := by
    by_cases hu : uri = ""
    · rw [if_pos hu, if_pos (by rw [hu])]
    · rw [if_neg hu, if_neg (fun hd => hu (string_eq_empty_of_data_eq_nil uri hd))]
  simp only [combineURL, combineURLSpec]
  rw [hpath, if_neg hbd]
  by_cases hpre : (if uri.data = [] then ['/'] else uri.data).head? = some '/'
  · rw [if_pos hpre, if_pos ((slash_isPrefixOf_iff _).mpr hpre)]
    by_cases hslash : base.data.getLast? = some '/'
    · rw [if_pos hslash, if_pos ((slash_isSuffixOf_iff _).mpr hslash)]
    · rw [if_neg hslash, if_neg (fun hsuf => hslash ((slash_isSuffixOf_iff _).mp hsuf))]
  · rw [if_neg hpre, if_neg (fun hp => hpre ((slash_isPrefixOf_iff _).mp hp))]
    by_cases hslash : base.data.getLast? = some '/'
    · rw [if_pos hslash, if_pos ((slash_isSuffixOf_iff _).mpr hslash)]
    · rw [if_neg hslash, if_neg (fun hsuf => hslash ((slash_isSuffixOf_iff _).mp hsuf))]

/-- C6 witness: the spec's three examples, via the amended theorem. -/
theorem combineURL_eq_spec_witness :
    (("http://h" : String) ≠ "" ∧ combineURL "http://h" "y"
        = some (combineURLSpec "http://h" "y"))
    ∧ combineURL "http://h" "/x" = some "http://h/x"
    ∧ combineURL "http://h/" "" = some "http://h/"
    ∧ combineURL "http://h" "y" = some "http://h/y" :=
  ⟨⟨by decide, combineURL_eq_spec "http://h" "y" (by decide)⟩, rfl, rfl, rfl⟩

/-! ## C3: broadcast-first semantics -/

/-- C3 counterexample: with zero contributors `getOneResponse` returns its
initial accumulator, the empty but non-`nil` slice `[]byte{}`, so `broadcast`
writes 200 with an empty body — not the 404 the claim requires for the empty
contributor set. -/
theorem broadcast_no_contributors_returns_200 :
    broadcastStatus [] = 200 ∧ getOneResponse [] = some [] :=
  ⟨rfl, rfl⟩

/-- C3 [corrected]: a 404 contributor is a success carrying the `nil` body
(no content, not an error); the first successful result with a non-empty body
is the one returned, with status 200; and the client receives 404 exactly
when no successful contributor has a non-empty body and the last successful
contributor carries the `nil` body (a 404) — in particular with zero
contributors, or when every contributor errors, or when the last
empty-bodied success is a 2xx, the client receives 200 with an empty body. -/
theorem broadcastFirst_semantics :
    (∀ url body, fetchSingletonFromOneEndpoint url none 404 body
        = { err := none, data := none, statusCode := 404 })
    ∧ (∀ results j, firstNonEmptySuccess results = some j →
        getOneResponse results = j.data ∧ broadcastStatus results = 200)
    ∧ (∀ results, broadcastStatus results = 404 ↔
        (firstNonEmptySuccess results = none
          ∧ ∃ jl, lastSuccess results = some jl ∧ jl.data = none)) := by
  refine ⟨fun url body => rfl, ?_, ?_⟩
  · intro results j hj
    have hchar := getOneResponse_char results
    rw [hj] at hchar
    have hj' : List.find? (fun r => r.err.isNone && goLen r.data != 0) results = some j := hj
    have hp := List.find?_some hj'
    have hlen : goLen j.data ≠ 0 := by
      simp only [Bool.and_eq_true, bne_iff_ne, ne_eq] at hp
      exact hp.2
    have hdata : j.data ≠ none := by
      intro hd
      rw [hd] at hlen
      exact hlen rfl
    refine ⟨hchar, ?_⟩
    rw [broadcastStatus, hchar, if_neg hdata]
  · intro results
    have hchar := getOneResponse_char results
    rw [broadcastStatus]
    cases hf : firstNonEmptySuccess results with
    | some j =>
        rw [hf] at hchar
        have hf' : List.find? (fun r => r.err.isNone && goLen r.data != 0) results = some j := hf
        have hp := List.find?_some hf'
        have hlen : goLen j.data ≠ 0 := by
          simp only [Bool.and_eq_true, bne_iff_ne, ne_eq] at hp
          exact hp.2
        have hdata : j.data ≠ none := by
          intro hd
          rw [hd] at hlen
          exact hlen rfl
        rw [hchar, if_neg hdata]
        constructor
        · intro hcontra
          exact absurd hcontra (by decide)
        · rintro ⟨hnone, -⟩
          exact Option.noConfusion hnone
    | none =>
        rw [hf] at hchar
        cases hls : lastSuccess results with
        | some jl =>
            rw [hls] at hchar
            by_cases hd : jl.data = none
            · rw [hchar, if_pos hd]
              exact iff_of_true rfl ⟨rfl, jl, rfl, hd⟩
            · rw [hchar, if_neg hd]
              constructor
              · intro hcontra
                exact absurd hcontra (by decide)
              · rintro ⟨-, jl', hjl', hdata'⟩
                have hjj : jl = jl' := by injection hjl'
                exact absurd hdata' (hjj ▸ hd)
        | none =>
            rw [hls] at hchar
            rw [hchar, if_neg (fun hh => Option.noConfusion hh)]
            constructor
            · intro hcontra
              exact absurd hcontra (by decide)
            · rintro ⟨-, jl', hjl', -⟩
              exact Option.noConfusion hjl'

/-- C3 witness: a 404 contributor followed by a 200 contributor with body
`OK`; the 200 body is returned with status 200. -/
theorem broadcastFirst_semantics_witness :
    firstNonEmptySuccess [⟨none, none, 404⟩, ⟨none, some [79, 75], 200⟩]
        = some ⟨none, some [79, 75], 200⟩
    ∧ (getOneResponse [⟨none, none, 404⟩, ⟨none, some [79, 75], 200⟩]
        = (⟨none, some [79, 75], 200⟩ : SingletonFetchResult).data
      ∧ broadcastStatus [⟨none, none, 404⟩, ⟨none, some [79, 75], 200⟩] = 200) :=
  ⟨by decide,
   broadcastFirst_semantics.2.1 [⟨none, none, 404⟩, ⟨none, some [79, 75], 200⟩]
     ⟨none, some [79, 75], 200⟩ (by decide)⟩

/-! ## C7: commutativity of the feature flag merge -/

/-- C7: the outcome of `combineFeatureLists` is independent of the order in
which the same contributor results are processed — every name resolves to the
same entry under any permutation — and in that outcome each distinct name
appears exactly once (the keys are nodup) with `enabled` true exactly when
some successful contributor reports the name as enabled. -/
theorem combineFeatureLists_commutative (rs₁ rs₂ : List FeatureFetchResult)
    (h : rs₁.Perm rs₂) :
    (∀ name, goMapGet (combineFeatureLists rs₁) name
        = goMapGet (combineFeatureLists rs₂) name)
    ∧ ((combineFeatureLists rs₁).map Prod.fst).Nodup
    ∧ (∀ name, goMapGet (combineFeatureLists rs₁) name =
        if flagMentioned rs₁ name then some (flagReportedTrue rs₁ name) else none) := by
  refine ⟨?_, nodup_keys_combineFeatureListsLoop rs₁ [] (by simp),
          fun name => combineFeatureLists_get rs₁ name⟩
  intro name
  rw [combineFeatureLists_get, combineFeatureLists_get]
  rw [show flagMentioned rs₁ name = flagMentioned rs₂ name from perm_any _ h]
  rw [show flagReportedTrue rs₁ name = flagReportedTrue rs₂ name from perm_any _ h]

/-- C7 witness: swapping two concrete contributors leaves every lookup of the
merged flag map unchanged. -/
theorem combineFeatureLists_commutative_witness :
    goMapGet (combineFeatureLists
        [⟨none, [⟨"a", true⟩]⟩, ⟨none, [⟨"a", false⟩, ⟨"b", false⟩]⟩]) "a"
      = goMapGet (combineFeatureLists
        [⟨none, [⟨"a", false⟩, ⟨"b", false⟩]⟩, ⟨none, [⟨"a", true⟩]⟩]) "a" :=
  (combineFeatureLists_commutative
    [⟨none, [⟨"a", true⟩]⟩, ⟨none, [⟨"a", false⟩, ⟨"b", false⟩]⟩]
    [⟨none, [⟨"a", false⟩, ⟨"b", false⟩]⟩, ⟨none, [⟨"a", true⟩]⟩]
    (List.Perm.swap (⟨none, [⟨"a", false⟩, ⟨"b", false⟩]⟩ : FeatureFetchResult)
      (⟨none, [⟨"a", true⟩]⟩ : FeatureFetchResult) [])).1 "a"

/-! ## C1: priority-based conflict resolution in the refresh merge -/

/-- C1: when an account name is advertised by at least two backends in one
refresh, the published routes map binds it to the winning backend, which (a)
has the maximum priority among all its advertisers and (b) is the first
advertiser, in processing order, reaching that priority (so on equal
priority the first one processed wins); and the published accounts list holds
exactly one entry for that name, the overwrites never appending a duplicate. -/
theorem fetchCreds_priority_conflict
    (resps : List (URLAndPriority × List TrackedSpinnakerAccount)) (name : String)
    (h : 2 ≤ (advertisers name resps).length) :
    ∃ w, goMapGet (fetchCreds resps).1 name = some w
      ∧ (∀ cd ∈ advertisers name resps, cd.Priority ≤ w.Priority)
      ∧ (advertisers name resps).find? (fun cd => decide (w.Priority ≤ cd.Priority)) = some w
      ∧ countName (fetchCreds resps).2 name = 1 := by
  obtain ⟨hd, tl, heq⟩ : ∃ hd tl, advertisers name resps = hd :: tl := by
    cases hadv : advertisers name resps with
    | nil => rw [hadv] at h; simp at h
    | cons hd tl => exact ⟨hd, tl, rfl⟩
  have hget := fetchCredsLoop_get resps [] [] name
  have hcount := fetchCredsLoop_count resps [] [] name
  rw [heq] at hget hcount
  simp only [goMapGet] at hget hcount
  refine ⟨tl.foldl (fun b cd => if b.Priority < cd.Priority then cd else b) hd, ?_, ?_, ?_, ?_⟩
  · rw [show fetchCreds resps =
        resps.foldl (fun st resp => mergeIfUnique resp.1 resp.2 st.1 st.2) ([], []) from rfl,
      hget]
    simp [pickWinner, pickWinner_eq_foldl]
  · rw [heq]
    intro cd hcd
    rcases List.mem_cons.mp hcd with rfl | hcd'
    · exact (pickWinner_max tl cd).1
    · exact (pickWinner_max tl hd).2 cd hcd'
  · rw [heq]
    exact pickWinner_first tl hd
  · rw [show fetchCreds resps =
        resps.foldl (fun st resp => mergeIfUnique resp.1 resp.2 st.1 st.2) ([], []) from rfl,
      hcount]
    simp [countName]

/-- C1 witness: two backends advertise account `x`; the one with priority 5
wins over the one with priority 0 and `x` is listed once. -/
theorem fetchCreds_priority_conflict_witness :
    2 ≤ (advertisers "x" [(⟨"http://b1", 0, ""⟩, [⟨"x", "aws"⟩]),
          (⟨"http://b2", 5, ""⟩, [⟨"x", "aws"⟩])]).length
    ∧ ∃ w, goMapGet (fetchCreds [(⟨"http://b1", 0, ""⟩, [⟨"x", "aws"⟩]),
          (⟨"http://b2", 5, ""⟩, [⟨"x", "aws"⟩])]).1 "x" = some w
      ∧ (∀ cd ∈ advertisers "x" [(⟨"http://b1", 0, ""⟩, [⟨"x", "aws"⟩]),
            (⟨"http://b2", 5, ""⟩, [⟨"x", "aws"⟩])], cd.Priority ≤ w.Priority)
      ∧ (advertisers "x" [(⟨"http://b1", 0, ""⟩, [⟨"x", "aws"⟩]),
            (⟨"http://b2", 5, ""⟩, [⟨"x", "aws"⟩])]).find?
          (fun cd => decide (w.Priority ≤ cd.Priority)) = some w
      ∧ countName (fetchCreds [(⟨"http://b1", 0, ""⟩, [⟨"x", "aws"⟩]),
          (⟨"http://b2", 5, ""⟩, [⟨"x", "aws"⟩])]).2 "x" = 1 :=
  ⟨by decide,
   fetchCreds_priority_conflict
     [(⟨"http://b1", 0, ""⟩, [⟨"x", "aws"⟩]), (⟨"http://b2", 5, ""⟩, [⟨"x", "aws"⟩])]
     "x" (by decide)⟩

/-! ## C4: health check state updates (`runChecker` / `RunCheckers`) -/

/-- C4 [code_bug]: `runChecker` receives its `healthIndicator` by value, so
the `healthy = false`, formatted-message and `lastChecked` writes it performs
after a failing `Check()` land on a local copy (second conjunct) while the
stored check list and the aggregate flag are completely unchanged (first
conjunct): the stored state never records the failure the claim describes. -/
theorem runChecker_updates_are_discarded :
    runCheckersIterate [⟨"ClouddriverManager", true, "", false, 0⟩] 0
        (some "connection refused") 99
      = ([⟨"ClouddriverManager", true, "", false, 0⟩], true)
    ∧ runChecker ⟨"ClouddriverManager", true, "", false, 0⟩ (some "connection refused") 99
      = ⟨"ClouddriverManager", false, "ClouddriverManager ERROR connection refused", false, 99⟩ := by
  constructor <;> rfl

/-! ## C5: the manager's own health check registration -/

/-- C5 counterexample: `MakeClouddriverManager` passes `observeOnly = true`
when registering the `ClouddriverManager` check, so the check is *not* a
required (non-observe-only) check as the claim states. -/
theorem clouddriverManager_check_not_required :
    ¬ ∃ c ∈ makeClouddriverManagerChecks [],
        c.service = "ClouddriverManager" ∧ c.observeOnly = false := by
  decide

/-- C5 [corrected]: `MakeClouddriverManager` registers the
`ClouddriverManager` check with `observeOnly = true`; its `Check()` returns
the initial-sync error until the first refresh completes and `nil` afterwards;
and, the check being observe-only, the aggregate healthy flag stays `true`
before the first refresh rather than reporting not-ready. -/
theorem clouddriverManager_check_registration :
    makeClouddriverManagerChecks []
      = [{ service := "ClouddriverManager", healthy := true, message := "",
           observeOnly := true, lastChecked := 0 }]
    ∧ clouddriverManagerCheck false = some "initial sync not yet performed"
    ∧ clouddriverManagerCheck true = none
    ∧ aggregateHealthy (makeClouddriverManagerChecks []) = true := by
  refine ⟨rfl, rfl, rfl, rfl⟩

/-! ## C8: locking structure of refresh vs. readers -/

/-- C8 counterexample: `updateAccounts` performs its `fetchCreds` network
fan-out while holding the manager mutex, contradicting the claim that readers
never block while a refresh is in progress and that the refresh serialises
with handlers only at the snapshot publish/read points. -/
theorem updateAccounts_network_under_lock :
    networkUnderLock updateAccountsSteps = true := by
  decide

/-- C8 [corrected]: `updateAccounts` locks the manager mutex before reading
the backend state and holds it through the network fan-out and the route
publish (steps 1-3), and `findCloudRoute` begins by acquiring the same mutex,
so readers serialise with the whole refresh, not only at the snapshot
publish/read points. -/
theorem refresh_serialises_readers :
    lockHeldAt updateAccountsSteps 1 = true
    ∧ lockHeldAt updateAccountsSteps 2 = true
    ∧ lockHeldAt updateAccountsSteps 3 = true
    ∧ networkUnderLock updateAccountsSteps = true
    ∧ findCloudRouteSteps.head? = some ManagerStep.lockMutex := by
  decide

/-! ## C9: `handleUpdate` frame property -/

/-- C9: a discovery update whose operation is neither `update` nor `delete`
falls through both branches of `handleUpdate`, leaving the backend state map
and the registered health checks exactly as they were. -/
theorem handleUpdate_frame (update : ServiceUpdate) (r : RegistryState)
    (h₁ : update.Operation ≠ "delete") (h₂ : update.Operation ≠ "update") :
    handleUpdate update r = r := by
  unfold handleUpdate
  rw [if_neg h₁, if_neg h₂]

/-- C9 witness: a concrete `noop` update leaves a concrete registry state
unchanged. -/
theorem handleUpdate_frame_witness :
    ("noop" : String) ≠ "delete" ∧ ("noop" : String) ≠ "update"
    ∧ handleUpdate ⟨"noop", "cd1", "agent", "http://u", "tok", []⟩
        ⟨[("controller:agent:cd1",
            { Source := "controller", Name := "cd1", URL := "http://u", UIUrl := "",
              AgentName := "agent", LastSuccessfulContact := 7, Priority := 1,
              DisableArtifactAccounts := false, healthcheckURL := "http://u/health",
              token := "tok", artifactHealth := none, accountHealth := none })],
          [⟨"clouddriver controller:agent:cd1", true, "", true, 0⟩]⟩
      = ⟨[("controller:agent:cd1",
            { Source := "controller", Name := "cd1", URL := "http://u", UIUrl := "",
              AgentName := "agent", LastSuccessfulContact := 7, Priority := 1,
              DisableArtifactAccounts := false, healthcheckURL := "http://u/health",
              token := "tok", artifactHealth := none, accountHealth := none })],
          [⟨"clouddriver controller:agent:cd1", true, "", true, 0⟩]⟩ :=
  ⟨by decide, by decide,
    handleUpdate_frame ⟨"noop", "cd1", "agent", "http://u", "tok", []⟩ _
      (by decide) (by decide)⟩

/-! ## C10: `RunCheckers` with an empty check list -/

/-- C10: the per-tick sleep of `RunCheckers` divides the frequency by the
number of registered checks, so a cycle that starts with an empty check list
performs an integer division by zero and panics (`none`), while any nonempty
list yields a defined sleep duration. -/
theorem runCheckers_sleep_requires_checks (frequency : Int) (checks : List HealthIndicator) :
    (checks = [] → runCheckersFirstSleep checks frequency = none)
    ∧ (checks ≠ [] → (runCheckersFirstSleep checks frequency).isSome = true) := by
  constructor
  · intro h
    subst h
    rfl
  · intro h
    have : checks.length ≠ 0 := fun hl => h (List.length_eq_zero.mp hl)
    simp [runCheckersFirstSleep, runCheckersSleepNs, this]

/-- C10 witness: with frequency 15, an empty check list panics and a
one-element list sleeps a defined duration. -/
theorem runCheckers_sleep_requires_checks_witness :
    runCheckersFirstSleep [] 15 = none
    ∧ (runCheckersFirstSleep [⟨"S", true, "OK", false, 0⟩] 15).isSome = true :=
  ⟨(runCheckers_sleep_requires_checks 15 []).1 rfl,
   (runCheckers_sleep_requires_checks 15 [⟨"S", true, "OK", false, 0⟩]).2 (by decide)⟩

end Stormdriver
